import Mathlib

/- Verification of the Cugrad scalar reverse-mode autodiff engine (src/main.cpp).

   Embedding conventions:
   * C++ `double` is modelled as `ℝ`; `std::pow` as `Real.rpow`, `std::exp` as
     `Real.exp`, `std::tanh` as `Real.tanh`.
   * Nodes live on a heap (`Store`): a size counter and a map from node ids
     (addresses) to `Node` records.  `std::shared_ptr<Value>` identity is node id
     identity, so pointer comparison in `Value::backward` is `Nat` equality.
   * The `std::function<void()> _backward` closures are defunctionalized into the
     `BackOp` tag, which records exactly the captured pointers (node ids) and the
     captured scalars of the corresponding lambda in main.cpp; `run_backward`
     executes a tag with the very reads/writes the lambda body performs, in the
     same order.
   * The recursive lambda `build_topo` is modelled with an explicit fuel
     parameter; a store whose parent ids precede the child id (every store the
     builders produce) never exhausts fuel, which is proved below. -/

namespace Cugrad

/-- Node identifiers: heap addresses of `Value` objects. -/
abbrev NodeId := Nat

/-- Defunctionalized `_backward` closures of main.cpp.  Each constructor records
the captured node ids (`self`, `other`/the exponent, and `out`) and captured
scalars of one lambda:
* `noop` — the `[](){}` installed by the `Value` constructor (leaf nodes);
* `addB self other out` — the lambda of `operator+`;
* `mulB self other out` — the lambda of `operator*`;
* `powB self exponent out` — the lambda of `pow`;
* `expB self out` — the lambda of `exp`;
* `tanhB self data out` — the lambda of `tanh` (it captures the forward value
  `data = tanh(x)` by value). -/
inductive BackOp : Type where
  | noop : BackOp
  | addB : NodeId → NodeId → NodeId → BackOp
  | mulB : NodeId → NodeId → NodeId → BackOp
  | powB : NodeId → ℝ → NodeId → BackOp
  | expB : NodeId → NodeId → BackOp
  | tanhB : NodeId → ℝ → NodeId → BackOp

/-- The `Value` class of main.cpp: `data`, `grad`, `_backward`, `_prev`,
`_op`, `label`. -/
@[ext]
structure Node where
  data : ℝ
  grad : ℝ
  _backward : BackOp
  _prev : List NodeId
  _op : String
  label : String

instance : Inhabited Node := ⟨⟨0, 0, .noop, [], "", ""⟩⟩

/-- The heap of allocated `Value` objects. -/
@[ext]
structure Store where
  size : Nat
  nodes : NodeId → Node

/-- Dereference a shared pointer. -/
def Store.get (s : Store) (i : NodeId) : Node := s.nodes i

/-- `std::make_shared<Value>(...)`: allocate a fresh node, returning the new
heap and the fresh address. -/
def Store.alloc (s : Store) (n : Node) : Store × NodeId :=
  (⟨s.size + 1, fun j => if j = s.size then n else s.nodes j⟩, s.size)

/-- Assignment `v->grad = g`. -/
def Store.setGrad (s : Store) (i : NodeId) (g : ℝ) : Store :=
  ⟨s.size, fun j => if j = i then { s.nodes i with grad := g } else s.nodes j⟩

/-- Accumulation `v->grad += g`. -/
def Store.addGrad (s : Store) (i : NodeId) (g : ℝ) : Store :=
  s.setGrad i ((s.get i).grad + g)

/-- The empty heap. -/
def Store.empty : Store := ⟨0, fun _ => default⟩

/-- The `Value(val, children, op, lbl)` constructor: `grad = 0`,
`_backward = [](){}`. -/
def mkValue (s : Store) (val : ℝ) (children : List NodeId) (op lbl : String) :
    Store × NodeId :=
  s.alloc { data := val, grad := 0, _backward := .noop, _prev := children,
            _op := op, label := lbl }

/-- `operator+(shared_ptr<Value>, shared_ptr<Value>)`.  The C++ code first runs
the constructor (no-op backward) and then assigns `out->_backward`; the final
heap is built in one step here. -/
def opAdd (s : Store) (self other : NodeId) : Store × NodeId :=
  s.alloc { data := (s.get self).data + (s.get other).data, grad := 0,
            _backward := .addB self other s.size, _prev := [self, other],
            _op := "+", label := "" }

/-- `operator+(shared_ptr<Value>, double)`: promote the scalar, then add. -/
def opAddVD (s : Store) (self : NodeId) (other : ℝ) : Store × NodeId :=
  let other_val := mkValue s other [] "" ""
  opAdd other_val.1 self other_val.2

/-- `operator+(double, shared_ptr<Value>)`: promote the scalar, then add. -/
def opAddDV (s : Store) (self_val : ℝ) (other : NodeId) : Store × NodeId :=
  let self := mkValue s self_val [] "" ""
  opAdd self.1 self.2 other

/-- `operator*(shared_ptr<Value>, shared_ptr<Value>)`. -/
def opMul (s : Store) (self other : NodeId) : Store × NodeId :=
  s.alloc { data := (s.get self).data * (s.get other).data, grad := 0,
            _backward := .mulB self other s.size, _prev := [self, other],
            _op := "*", label := "" }

/-- `operator*(shared_ptr<Value>, double)`: promote the scalar, then multiply. -/
def opMulVD (s : Store) (self : NodeId) (other : ℝ) : Store × NodeId :=
  let other_val := mkValue s other [] "" ""
  opMul other_val.1 self other_val.2

/-- `operator*(double, shared_ptr<Value>)`: promote the scalar, then multiply. -/
def opMulDV (s : Store) (self : ℝ) (other : NodeId) : Store × NodeId :=
  let self_val := mkValue s self [] "" ""
  opMul self_val.1 self_val.2 other

/-- `pow(shared_ptr<Value>, double)`.  The C++ `_op` tag is
`"**" + std::to_string(exponent)`; `ℝ` has no printing, so the numeric suffix of
this diagnostics-only tag is dropped. -/
noncomputable def pow (s : Store) (self : NodeId) (exponent : ℝ) :
    Store × NodeId :=
  s.alloc { data := Real.rpow (s.get self).data exponent, grad := 0,
            _backward := .powB self exponent s.size, _prev := [self],
            _op := "**", label := "" }

/-- `operator/(shared_ptr<Value>, shared_ptr<Value>)`: `self * pow(other, -1)`. -/
noncomputable def opDiv (s : Store) (self other : NodeId) : Store × NodeId :=
  let p := pow s other (-1)
  opMul p.1 self p.2

/-- `operator/(shared_ptr<Value>, double)`: `self * (1/other)` — the reciprocal
scalar is promoted inside `operator*(node, double)`. -/
noncomputable def opDivVD (s : Store) (self : NodeId) (other : ℝ) : Store × NodeId :=
  opMulVD s self (1 / other)

/-- `operator/(double, shared_ptr<Value>)`: promote `self`, then
`self_val * pow(other, -1)`. -/
noncomputable def opDivDV (s : Store) (self : ℝ) (other : NodeId) :
    Store × NodeId :=
  let self_val := mkValue s self [] "" ""
  let p := pow self_val.1 other (-1)
  opMul p.1 self_val.2 p.2

/-- Unary `operator-(shared_ptr<Value>)`: `self * -1` (via the
`operator*(node, double)` overload, which promotes `-1`). -/
def neg (s : Store) (self : NodeId) : Store × NodeId :=
  opMulVD s self (-1)

/-- `operator-(shared_ptr<Value>, shared_ptr<Value>)`: `self + (-other)`. -/
def opSub (s : Store) (self other : NodeId) : Store × NodeId :=
  let n := neg s other
  opAdd n.1 self n.2

/-- `operator-(shared_ptr<Value>, double)`: promote `other`, then
`self + (-other_val)`. -/
def opSubVD (s : Store) (self : NodeId) (other : ℝ) : Store × NodeId :=
  let other_val := mkValue s other [] "" ""
  let n := neg other_val.1 other_val.2
  opAdd n.1 self n.2

/-- `operator-(double, shared_ptr<Value>)`: promote `self`, then
`self_val + (-other)`. -/
def opSubDV (s : Store) (self : ℝ) (other : NodeId) : Store × NodeId :=
  let self_val := mkValue s self [] "" ""
  let n := neg self_val.1 other
  opAdd n.1 self_val.2 n.2

/-- `exp(shared_ptr<Value>)`. -/
noncomputable def exp (s : Store) (self : NodeId) : Store × NodeId :=
  s.alloc { data := Real.exp (s.get self).data, grad := 0,
            _backward := .expB self s.size, _prev := [self],
            _op := "exp", label := "" }

/-- `tanh(shared_ptr<Value>)`; the lambda captures `data = tanh(x)` by value. -/
noncomputable def tanh (s : Store) (self : NodeId) : Store × NodeId :=
  s.alloc { data := Real.tanh (s.get self).data, grad := 0,
            _backward := .tanhB self (Real.tanh (s.get self).data) s.size,
            _prev := [self], _op := "tanh", label := "" }

/-- Invoke `(*it)->_backward()`: execute node `i`'s stored closure against the
current heap, performing the lambda body's reads and `+=` writes in statement
order. -/
noncomputable def run_backward (s : Store) (i : NodeId) : Store :=
  match (s.get i)._backward with
  | .noop => s
  | .addB a b o =>
      let s1 := s.addGrad a (1 * (s.get o).grad)
      s1.addGrad b (1 * (s1.get o).grad)
  | .mulB a b o =>
      let s1 := s.addGrad a ((s.get b).data * (s.get o).grad)
      s1.addGrad b ((s1.get a).data * (s1.get o).grad)
  | .powB a k o =>
      s.addGrad a (k * Real.rpow (s.get a).data (k - 1) * (s.get o).grad)
  | .expB a o =>
      s.addGrad a ((s.get o).data * (s.get o).grad)
  | .tanhB a d o =>
      s.addGrad a ((1 - d * d) * (s.get o).grad)

/-- The recursive `build_topo` lambda of `Value::backward`, with explicit fuel.
The accumulator is the pair `(visited, topo)`; the visited check `x == v` is
shared-pointer (id) comparison. -/
def build_topo (s : Store) : Nat → NodeId → List NodeId × List NodeId →
    List NodeId × List NodeId
  | 0, _, acc => acc
  | fuel + 1, v, acc =>
    if v ∈ acc.1 then acc
    else
      let acc1 := (acc.1 ++ [v], acc.2)
      let acc2 := (s.get v)._prev.foldl (fun a c => build_topo s fuel c a) acc1
      (acc2.1, acc2.2 ++ [v])

/-- The topological order `Value::backward` builds, starting from empty
`visited`/`topo` lists at node `v`.  Fuel `s.size` suffices on every
builder-generated heap (proved below). -/
def topoOf (s : Store) (v : NodeId) : List NodeId :=
  (build_topo s s.size v ([], [])).2

/-- The reverse replay loop of `Value::backward`. -/
noncomputable def replay (s : Store) (order : List NodeId) : Store :=
  order.foldl run_backward s

/-- `Value::backward()`: build the topological order from `this`, seed
`grad = 1.0`, then invoke every `_backward` in reverse topological order. -/
noncomputable def backward (s : Store) (v : NodeId) : Store :=
  let t := topoOf s v
  replay (s.setGrad v 1) t.reverse

/-- The node ids a stored closure writes to (`self`, and `other` for the binary
ops): its gradient targets. -/
def Node.ruleTargets (n : Node) : List NodeId :=
  match n._backward with
  | .noop => []
  | .addB a b _ => [a, b]
  | .mulB a b _ => [a, b]
  | .powB a _ _ => [a]
  | .expB a _ => [a]
  | .tanhB a _ _ => [a]

/-- The captured `out` pointer of a stored closure, if any. -/
def Node.outId (n : Node) : Option NodeId :=
  match n._backward with
  | .noop => none
  | .addB _ _ o => some o
  | .mulB _ _ o => some o
  | .powB _ _ o => some o
  | .expB _ o => some o
  | .tanhB _ _ o => some o

/-- Well-formedness of a heap, as established by the builders: every allocated
node's parents were allocated earlier (the DAG invariant), its closure writes
only into its parents, and its closure's captured `out` pointer is the node
itself. -/
def Store.WF (s : Store) : Prop :=
  ∀ i, i < s.size →
    (∀ c ∈ (s.get i)._prev, c < i) ∧
    (∀ t ∈ (s.get i).ruleTargets, t ∈ (s.get i)._prev) ∧
    (s.get i).outId.getD i = i

instance (s : Store) : Decidable s.WF := by
  unfold Store.WF; exact inferInstance

/-- A node with its gradient accumulator blanked: the part of a node the
backward pass must never change. -/
def Node.strip (n : Node) : Node := { n with grad := 0 }

/-- Two heaps of identical layout: same allocation count, and every node equal
up to its gradient accumulator. -/
def Store.SameShape (s σ : Store) : Prop :=
  σ.size = s.size ∧ ∀ j, (σ.get j).strip = (s.get j).strip

/-- `Reaches s v u`: node `u` is reachable from node `v` through `_prev` edges
(reflexively, transitively). -/
inductive Reaches (s : Store) : NodeId → NodeId → Prop where
  | refl (v : NodeId) : Reaches s v v
  | step {v c u : NodeId} : c ∈ (s.get v)._prev → Reaches s c u → Reaches s v u

/-- Invariant of the `(visited, topo)` accumulator of `build_topo`: the topo
list is duplicate-free, contained in the visited list, closed under parents,
and no node in it is a parent of an earlier node. -/
structure TopoInv (s : Store) (V T : List NodeId) : Prop where
  nodup : T.Nodup
  subV : ∀ x ∈ T, x ∈ V
  closed : ∀ x ∈ T, ∀ p ∈ (s.get x)._prev, p ∈ T
  pair : List.Pairwise (fun a b => b ∉ (s.get a)._prev) T

/-- Postcondition of one `build_topo s fuel v` call from accumulator `(V, T)`
with result `r`. -/
structure BTPost (s : Store) (v : NodeId) (V T : List NodeId)
    (r : List NodeId × List NodeId) : Prop where
  vmono : ∃ l, r.1 = V ++ l
  tmono : ∃ l, r.2 = T ++ l
  inv : TopoInv s r.1 r.2
  graySub : ∀ x, x ∈ r.1 → x ∉ r.2 → x ∈ V ∧ x ∉ T
  grayKeep : ∀ x ∈ V, x ∉ T → x ∉ r.2
  selfMem : v ∈ r.2
  sound : ∀ x ∈ r.2, x ∈ T ∨ Reaches s v x

/-- Postcondition of the fold of `build_topo` over a child list `cs` (all
smaller than the current node `v`). -/
structure FoldPost (s : Store) (cs : List NodeId) (V T : List NodeId)
    (r : List NodeId × List NodeId) : Prop where
  vmono : ∃ l, r.1 = V ++ l
  tmono : ∃ l, r.2 = T ++ l
  inv : TopoInv s r.1 r.2
  graySub : ∀ x, x ∈ r.1 → x ∉ r.2 → x ∈ V ∧ x ∉ T
  grayKeep : ∀ x ∈ V, x ∉ T → x ∉ r.2
  childMem : ∀ c ∈ cs, c ∈ r.2
  sound : ∀ x ∈ r.2, x ∈ T ∨ ∃ c ∈ cs, Reaches s c x

/-- Relation between two replays whose initial heaps agree except that node
`u`'s gradient accumulator is offset by `t`: same layout, offset `t` at `u`,
and equal gradients at every node not reachable from `u`. -/
def ShiftInv (s : Store) (u : NodeId) (t : ℝ) (σ₁ σ₂ : Store) : Prop :=
  s.SameShape σ₁ ∧ s.SameShape σ₂ ∧
  ((σ₂.get u).grad = (σ₁.get u).grad + t) ∧
  (∀ x, ¬ Reaches s u x → (σ₂.get x).grad = (σ₁.get x).grad)

/- Spec-side definitions for the refinement claims (C6, C7). -/

/-- Modelled from the spec: `negate(x)` as `multiply(x, constant(-1))`. -/
def spec_negate (s : Store) (x : NodeId) : Store × NodeId :=
  let c := mkValue s (-1) [] "" ""
  opMul c.1 x c.2

/-- Modelled from the spec: `subtract(x, y)` as `add(x, negate(y))`. -/
def spec_subtract (s : Store) (x y : NodeId) : Store × NodeId :=
  let n := spec_negate s y
  opAdd n.1 x n.2

/-- Modelled from the spec: `divide(x, y)` as `multiply(x, power(y, -1))`. -/
noncomputable def spec_divide (s : Store) (x y : NodeId) : Store × NodeId :=
  let p := pow s y (-1)
  opMul p.1 x p.2

/-- Modelled from the spec: scalar-operand promotion for `divide(node, scalar)`
— first call `constant(scalar)`, then apply the node/node divide builder. -/
noncomputable def spec_div_promote (s : Store) (x : NodeId) (d : ℝ) :
    Store × NodeId :=
  let c := mkValue s d [] "" ""
  opDiv c.1 x c.2

/- Concrete fixture heaps. -/

/-- A heap holding one leaf node of value `v` at address 0. -/
def xLeaf (v : ℝ) : Store := (mkValue Store.empty v [] "" "").1

/-- `y = x + x` (same operand twice): leaf `x` at 0, sum at 1. -/
def addXX (v : ℝ) : Store := (opAdd (xLeaf v) 0 0).1

/-- Two consumers of one node: `x`(0), `a`(1), `b`(2), `p = x*a`(3),
`q = x*b`(4), `z = p + q`(5). -/
def fanOut (xv av bv : ℝ) : Store :=
  (opAdd ((opMul ((opMul ((mkValue ((mkValue (xLeaf xv) av [] "" "").1)
    bv [] "" "").1) 0 1).1) 0 2).1) 3 4).1

/-- The canonical fixture of main, step by step: `a = Value(2.0)`(0),
`b = Value(-3.0)`(1), `c = Value(10.0)`(2), `f = Value(-2.0)`(3),
`e = a*b`(4), `d = e+c`(5), `L = d*f`(6). -/
def sA : Store := (mkValue Store.empty 2 [] "" "").1

/-- Canonical fixture after `b = Value(-3.0)`. -/
def sB : Store := (mkValue sA (-3) [] "" "").1

/-- Canonical fixture after `c = Value(10.0)`. -/
def sC : Store := (mkValue sB 10 [] "" "").1

/-- Canonical fixture after `f = Value(-2.0)`. -/
def sF : Store := (mkValue sC (-2) [] "" "").1

/-- Canonical fixture after `e = a * b`. -/
def sE : Store := (opMul sF 0 1).1

/-- Canonical fixture after `d = e + c`. -/
def sD : Store := (opAdd sE 4 2).1

/-- Canonical fixture after `L = d * f`. -/
def sL : Store := (opMul sD 5 3).1

/-- `y = tanh(x)` with `x` at 0 holding `v`, `y` at 1. -/
noncomputable def tanhFix (v : ℝ) : Store := (tanh (xLeaf v) 0).1

/-- `y = exp(x)` with `x` at 0 holding `v`, `y` at 1. -/
noncomputable def expFix (v : ℝ) : Store := (exp (xLeaf v) 0).1

/-- `y = pow(x, 3)` with `x` at 0 holding `2`, `y` at 1 (witness heap). -/
noncomputable def powFixW : Store := (pow (xLeaf 2) 0 3).1

/-- A diamond with value-equal distinct leaves: `x`(0) and `y`(1) both hold
`1.0`; `p = x*y`(2), `q = x+y`(3), `z = p*q`(4). -/
def diaS : Store :=
  (opMul ((opAdd ((opMul ((mkValue (xLeaf 1) 1 [] "" "").1) 0 1).1) 0 1).1)
    2 3).1

/-- Two unconnected leaves, at 0 and 1. -/
def twoLeafS : Store := (mkValue (xLeaf 1) 2 [] "" "").1



theorem Reaches.trans {s : Store} {a b c : NodeId} (h1 : Reaches s a b)
    (h2 : Reaches s b c) : Reaches s a c := by
  induction h1 with
  | refl => exact h2
  | step hc _ ih => exact .step hc (ih h2)

theorem prev_lt {s : Store} (hWF : s.WF) {v : NodeId} (hv : v < s.size) :
    ∀ c ∈ (s.get v)._prev, c < v := (hWF v hv).1

theorem reach_le {s : Store} (hWF : s.WF) :
    ∀ {v u : NodeId}, Reaches s v u → v < s.size → u ≤ v := by
  intro v u h
  induction h with
  | refl => intro _; exact le_refl _
  | step hc _ ih =>
      intro hv
      have hcv := prev_lt hWF hv _ hc
      exact le_trans (ih (lt_trans hcv hv)) (le_of_lt hcv)

theorem closed_mem {s : Store} {T : List NodeId}
    (hcl : ∀ x ∈ T, ∀ p ∈ (s.get x)._prev, p ∈ T) :
    ∀ {v u : NodeId}, Reaches s v u → v ∈ T → u ∈ T := by
  intro v u h
  induction h with
  | refl => exact id
  | step hc _ ih => intro hv; exact ih (hcl _ hv _ hc)

theorem build_topo_fold (s : Store) (f : Nat)
    (IH : ∀ v V T, v < f → v < s.size →
      (∀ x ∈ V, x ∉ T → v < x) → TopoInv s V T →
      BTPost s v V T (build_topo s f v (V, T))) :
    ∀ cs v, v < s.size → v ≤ f → (∀ c ∈ cs, c < v) →
    ∀ V T, (∀ x ∈ V, x ∉ T → v ≤ x) → TopoInv s V T →
    FoldPost s cs V T (cs.foldl (fun a c => build_topo s f c a) (V, T)) := by
  intro cs
  induction cs with
  | nil =>
      intro v hv hvf hlt V T hgray hinv
      exact { vmono := ⟨[], by simp⟩, tmono := ⟨[], by simp⟩,
              inv := hinv, graySub := fun x h1 h2 => ⟨h1, h2⟩,
              grayKeep := fun _ _ h => h, childMem := by simp,
              sound := fun _ hx => Or.inl hx }
  | cons c cs ihcs =>
      intro v hv hvf hlt V T hgray hinv
      simp only [List.foldl_cons]
      have hcv : c < v := hlt c (by simp)
      have post1 := IH c V T (lt_of_lt_of_le hcv hvf) (lt_trans hcv hv)
        (fun x h1 h2 => lt_of_lt_of_le hcv (hgray x h1 h2)) hinv
      have hgray1 : ∀ x ∈ (build_topo s f c (V, T)).1,
          x ∉ (build_topo s f c (V, T)).2 → v ≤ x := fun x h1 h2 =>
        hgray x (post1.graySub x h1 h2).1 (post1.graySub x h1 h2).2
      have post2 := ihcs v hv hvf (fun c' hc' => hlt c' (List.mem_cons_of_mem _ hc'))
        (build_topo s f c (V, T)).1 (build_topo s f c (V, T)).2 hgray1 post1.inv
      obtain ⟨l1, e1⟩ := post1.vmono
      obtain ⟨l2, e2⟩ := post2.vmono
      obtain ⟨m1, f1⟩ := post1.tmono
      obtain ⟨m2, f2⟩ := post2.tmono
      refine { inv := post2.inv, vmono := ⟨l1 ++ l2, ?_⟩, tmono := ⟨m1 ++ m2, ?_⟩,
               graySub := ?_, grayKeep := ?_, childMem := ?_, sound := ?_ }
      · rw [e2, e1, List.append_assoc]
      · rw [f2, f1, List.append_assoc]
      · intro x h1 h2
        exact post1.graySub x (post2.graySub x h1 h2).1 (post2.graySub x h1 h2).2
      · intro x h1 h2
        exact post2.grayKeep x (by rw [e1]; exact List.mem_append_left _ h1)
          (post1.grayKeep x h1 h2)
      · intro c' hc'
        rcases List.mem_cons.mp hc' with h | h
        · subst h
          rw [f2]
          exact List.mem_append_left _ post1.selfMem
        · exact post2.childMem c' h
      · intro x hx
        rcases post2.sound x hx with h | ⟨c', hc', hr⟩
        · rcases post1.sound x h with h' | hr
          · exact Or.inl h'
          · exact Or.inr ⟨c, by simp, hr⟩
        · exact Or.inr ⟨c', List.mem_cons_of_mem _ hc', hr⟩

theorem build_topo_post (s : Store) (hWF : s.WF) :
    ∀ fuel v V T, v < fuel → v < s.size →
      (∀ x ∈ V, x ∉ T → v < x) → TopoInv s V T →
      BTPost s v V T (build_topo s fuel v (V, T)) := by
  intro fuel
  induction fuel with
  | zero => intro v V T h _ _ _; exact absurd h (Nat.not_lt_zero v)
  | succ f IH =>
    intro v V T hvf hv hgray hinv
    by_cases hmem : v ∈ V
    · have hvT : v ∈ T := by
        by_contra hvT
        exact absurd (hgray v hmem hvT) (lt_irrefl v)
      have heq : build_topo s (f + 1) v (V, T) = (V, T) := by
        simp [build_topo, hmem]
      rw [heq]
      exact { vmono := ⟨[], by simp⟩, tmono := ⟨[], by simp⟩, inv := hinv,
              graySub := fun x h1 h2 => ⟨h1, h2⟩, grayKeep := fun _ _ h => h,
              selfMem := hvT, sound := fun _ hx => Or.inl hx }
    · have heq : build_topo s (f + 1) v (V, T) =
        (((s.get v)._prev.foldl (fun a c => build_topo s f c a) (V ++ [v], T)).1,
         ((s.get v)._prev.foldl (fun a c => build_topo s f c a) (V ++ [v], T)).2
           ++ [v]) := by
        simp [build_topo, hmem]
      rw [heq]
      have hchild : ∀ c ∈ (s.get v)._prev, c < v := prev_lt hWF hv
      have hinv1 : TopoInv s (V ++ [v]) T :=
        { hinv with subV := fun x hx => List.mem_append_left _ (hinv.subV x hx) }
      have hgray1 : ∀ x ∈ V ++ [v], x ∉ T → v ≤ x := by
        intro x hx hxT
        rcases List.mem_append.mp hx with h | h
        · exact le_of_lt (hgray x h hxT)
        · simp at h; exact le_of_eq h.symm
      have hvle : v ≤ f := Nat.lt_succ_iff.mp hvf
      have post := build_topo_fold s f IH (s.get v)._prev v hv hvle hchild
        (V ++ [v]) T hgray1 hinv1
      have hvT : v ∉ T := fun h => hmem (hinv.subV v h)
      have hvr2 : v ∉ ((s.get v)._prev.foldl (fun a c => build_topo s f c a)
          (V ++ [v], T)).2 :=
        post.grayKeep v (List.mem_append_right _ (by simp)) hvT
      obtain ⟨l1, e1⟩ := post.vmono
      obtain ⟨m1, f1⟩ := post.tmono
      have hvr1 : v ∈ ((s.get v)._prev.foldl (fun a c => build_topo s f c a)
          (V ++ [v], T)).1 := by
        rw [e1]
        exact List.mem_append_left _ (List.mem_append_right _ (by simp))
      refine { vmono := ⟨[v] ++ l1, ?_⟩, tmono := ⟨m1 ++ [v], ?_⟩, inv := ?_,
               graySub := ?_, grayKeep := ?_, selfMem := ?_, sound := ?_ }
      · rw [e1, List.append_assoc]
      · rw [f1, List.append_assoc]
      · refine { nodup := ?_, subV := ?_, closed := ?_, pair := ?_ }
        · rw [List.nodup_append]
          exact ⟨post.inv.nodup, List.nodup_singleton v,
            fun x hx hv' => by simp at hv'; exact hvr2 (hv' ▸ hx)⟩
        · intro x hx
          rcases List.mem_append.mp hx with h | h
          · exact post.inv.subV x h
          · simp at h; rw [h]; exact hvr1
        · intro x hx p hp
          rcases List.mem_append.mp hx with h | h
          · exact List.mem_append_left _ (post.inv.closed x h p hp)
          · simp at h; rw [h] at hp
            exact List.mem_append_left _ (post.childMem p hp)
        · rw [List.pairwise_append]
          refine ⟨post.inv.pair, List.pairwise_singleton _ _, ?_⟩
          intro a ha b hb
          simp at hb; rw [hb]
          intro hvin
          exact hvr2 (post.inv.closed a ha v hvin)
      · intro x h1 h2
        rw [List.mem_append] at h2
        push_neg at h2
        have h3 := post.graySub x h1 h2.1
        rcases List.mem_append.mp h3.1 with h | h
        · exact ⟨h, h3.2⟩
        · simp at h
          have hne : x ≠ v := by simpa using h2.2
          exact absurd h hne
      · intro x h1 h2
        rw [List.mem_append]
        push_neg
        refine ⟨post.grayKeep x (List.mem_append_left _ h1) h2, ?_⟩
        simp
        exact fun h => absurd (hgray x h1 h2) (by rw [h]; exact lt_irrefl v)
      · exact List.mem_append_right _ (by simp)
      · intro x hx
        rcases List.mem_append.mp hx with h | h
        · rcases post.sound x h with h' | ⟨c, hc, hr⟩
          · exact Or.inl h'
          · exact Or.inr (.step hc hr)
        · simp at h; rw [h]
          exact Or.inr (.refl v)



theorem topoOf_post (s : Store) (hWF : s.WF) (v : NodeId) (hv : v < s.size) :
    BTPost s v [] [] (build_topo s s.size v ([], [])) :=
  build_topo_post s hWF s.size v [] [] hv hv (by simp)
    ⟨List.nodup_nil, by simp, by simp, List.Pairwise.nil⟩

theorem topoOf_sound (s : Store) (hWF : s.WF) (v : NodeId) (hv : v < s.size) :
    ∀ x ∈ topoOf s v, Reaches s v x := by
  intro x hx
  rcases (topoOf_post s hWF v hv).sound x hx with h | h
  · simp at h
  · exact h

theorem topoOf_complete (s : Store) (hWF : s.WF) (v : NodeId) (hv : v < s.size) :
    ∀ u, Reaches s v u → u ∈ topoOf s v := by
  intro u hr
  exact closed_mem (fun x hx p hp => (topoOf_post s hWF v hv).inv.closed x hx p hp)
    hr (topoOf_post s hWF v hv).selfMem

theorem build_topo_fuel (s : Store) (hWF : s.WF) :
    ∀ v, v < s.size → ∀ f1 f2, v < f1 → v < f2 → ∀ acc,
      build_topo s f1 v acc = build_topo s f2 v acc := by
  intro v
  induction v using Nat.strong_induction_on with
  | _ v ih =>
    intro hv f1 f2 h1 h2 acc
    cases f1 with
    | zero => exact absurd h1 (Nat.not_lt_zero v)
    | succ g1 =>
      cases f2 with
      | zero => exact absurd h2 (Nat.not_lt_zero v)
      | succ g2 =>
        by_cases hmem : v ∈ acc.1
        · simp [build_topo, hmem]
        · have hfold : ∀ cs : List NodeId, (∀ c ∈ cs, c < v) →
              ∀ acc' : List NodeId × List NodeId,
              cs.foldl (fun a c => build_topo s g1 c a) acc'
                = cs.foldl (fun a c => build_topo s g2 c a) acc' := by
            intro cs
            induction cs with
            | nil => intro _ _; rfl
            | cons c cs ihc =>
              intro hlt acc'
              have hcv : c < v := hlt c (by simp)
              simp only [List.foldl_cons]
              rw [ih c hcv (lt_trans hcv hv) g1 g2
                (lt_of_lt_of_le hcv (Nat.lt_succ_iff.mp h1))
                (lt_of_lt_of_le hcv (Nat.lt_succ_iff.mp h2)) acc']
              exact ihc (fun c' h => hlt c' (List.mem_cons_of_mem _ h)) _
          simp only [build_topo, hmem, if_false]
          rw [hfold _ (prev_lt hWF hv)]



theorem sameShape_rfl (s : Store) : s.SameShape s := ⟨rfl, fun _ => rfl⟩

theorem sameShape_trans {s σ τ : Store} (h1 : s.SameShape σ)
    (h2 : σ.SameShape τ) : s.SameShape τ :=
  ⟨h2.1.trans h1.1, fun j => (h2.2 j).trans (h1.2 j)⟩

theorem setGrad_shape (s : Store) (i : NodeId) (g : ℝ) :
    s.SameShape (s.setGrad i g) := by
  refine ⟨rfl, fun j => ?_⟩
  unfold Store.setGrad Store.get Node.strip
  by_cases h : j = i <;> simp [h]

theorem addGrad_shape (s : Store) (i : NodeId) (g : ℝ) :
    s.SameShape (s.addGrad i g) := setGrad_shape s i _

theorem shape_size {s σ : Store} (h : s.SameShape σ) : σ.size = s.size := h.1

theorem strip_data (n : Node) : n.strip.data = n.data := rfl

theorem strip_back (n : Node) : n.strip._backward = n._backward := rfl

theorem strip_prev (n : Node) : n.strip._prev = n._prev := rfl

theorem strip_op (n : Node) : n.strip._op = n._op := rfl

theorem strip_label (n : Node) : n.strip.label = n.label := rfl

theorem shape_data {s σ : Store} (h : s.SameShape σ) (j : NodeId) :
    (σ.get j).data = (s.get j).data := by
  rw [← strip_data (σ.get j), ← strip_data (s.get j), h.2 j]

theorem shape_back {s σ : Store} (h : s.SameShape σ) (j : NodeId) :
    (σ.get j)._backward = (s.get j)._backward := by
  rw [← strip_back (σ.get j), ← strip_back (s.get j), h.2 j]

theorem shape_prev {s σ : Store} (h : s.SameShape σ) (j : NodeId) :
    (σ.get j)._prev = (s.get j)._prev := by
  rw [← strip_prev (σ.get j), ← strip_prev (s.get j), h.2 j]

theorem shape_op {s σ : Store} (h : s.SameShape σ) (j : NodeId) :
    (σ.get j)._op = (s.get j)._op := by
  rw [← strip_op (σ.get j), ← strip_op (s.get j), h.2 j]

theorem shape_label {s σ : Store} (h : s.SameShape σ) (j : NodeId) :
    (σ.get j).label = (s.get j).label := by
  rw [← strip_label (σ.get j), ← strip_label (s.get j), h.2 j]

theorem ruleTargets_congr {n m : Node} (h : n._backward = m._backward) :
    n.ruleTargets = m.ruleTargets := by
  unfold Node.ruleTargets; rw [h]

theorem outId_congr {n m : Node} (h : n._backward = m._backward) :
    n.outId = m.outId := by
  unfold Node.outId; rw [h]

theorem run_backward_shape (σ : Store) (i : NodeId) :
    σ.SameShape (run_backward σ i) := by
  unfold run_backward
  rcases hb : (σ.get i)._backward with _ | ⟨a, b, o⟩ | ⟨a, b, o⟩ | ⟨a, k, o⟩
    | ⟨a, o⟩ | ⟨a, d, o⟩ <;>
    simp only [] <;>
    first
      | exact sameShape_rfl σ
      | exact addGrad_shape σ _ _
      | exact sameShape_trans (addGrad_shape σ _ _) (addGrad_shape _ _ _)

theorem replay_shape (L : List NodeId) :
    ∀ σ : Store, σ.SameShape (replay σ L) := by
  induction L with
  | nil => intro σ; exact sameShape_rfl σ
  | cons i L ihl =>
      intro σ
      exact sameShape_trans (run_backward_shape σ i) (ihl (run_backward σ i))

theorem backward_shape (s : Store) (v : NodeId) :
    s.SameShape (backward s v) := by
  unfold backward
  exact sameShape_trans (setGrad_shape s v 1) (replay_shape _ _)

theorem WF_of_shape {s σ : Store} (h : s.SameShape σ) (hWF : s.WF) : σ.WF := by
  intro i hi
  rw [shape_size h] at hi
  obtain ⟨w1, w2, w3⟩ := hWF i hi
  refine ⟨?_, ?_, ?_⟩
  · rw [shape_prev h]; exact w1
  · rw [shape_prev h, ruleTargets_congr (shape_back h i)]; exact w2
  · rw [outId_congr (shape_back h i)]; exact w3

theorem build_topo_shape {s σ : Store} (h : s.SameShape σ) :
    ∀ fuel v acc, build_topo σ fuel v acc = build_topo s fuel v acc := by
  intro fuel
  induction fuel with
  | zero => intro v acc; rfl
  | succ f ihf =>
      intro v acc
      have hfun : (fun (a : List NodeId × List NodeId) c => build_topo σ f c a)
          = fun a c => build_topo s f c a := by
        funext a c; exact ihf c a
      by_cases hmem : v ∈ acc.1 <;>
        simp [build_topo, hmem, hfun, shape_prev h v]

theorem topoOf_shape {s σ : Store} (h : s.SameShape σ) (v : NodeId) :
    topoOf σ v = topoOf s v := by
  unfold topoOf
  rw [shape_size h, build_topo_shape h]

theorem get_setGrad_self (s : Store) (i : NodeId) (g : ℝ) :
    ((s.setGrad i g).get i).grad = g := by
  simp [Store.setGrad, Store.get]

theorem get_setGrad_ne (s : Store) {i j : NodeId} (h : j ≠ i) (g : ℝ) :
    (s.setGrad i g).get j = s.get j := by
  simp [Store.setGrad, Store.get, h]

theorem get_addGrad_self (s : Store) (i : NodeId) (g : ℝ) :
    ((s.addGrad i g).get i).grad = (s.get i).grad + g := get_setGrad_self s i _

theorem get_addGrad_ne (s : Store) {i j : NodeId} (h : j ≠ i) (g : ℝ) :
    (s.addGrad i g).get j = s.get j := get_setGrad_ne s h _

theorem run_backward_grad_ne (σ : Store) (i : NodeId) {x : NodeId}
    (hx : x ∉ (σ.get i).ruleTargets) :
    ((run_backward σ i).get x).grad = (σ.get x).grad := by
  rcases hb : (σ.get i)._backward with _ | ⟨a, b, o⟩ | ⟨a, b, o⟩ | ⟨a, k, o⟩
    | ⟨a, o⟩ | ⟨a, d, o⟩ <;>
    simp only [Node.ruleTargets, hb, List.mem_cons, List.mem_singleton,
      List.not_mem_nil, or_false] at hx <;>
    simp only [run_backward, hb]
  · rw [get_addGrad_ne _ (fun h => hx (Or.inr h)),
      get_addGrad_ne _ (fun h => hx (Or.inl h))]
  · rw [get_addGrad_ne _ (fun h => hx (Or.inr h)),
      get_addGrad_ne _ (fun h => hx (Or.inl h))]
  · rw [get_addGrad_ne _ hx]
  · rw [get_addGrad_ne _ hx]
  · rw [get_addGrad_ne _ hx]

theorem replay_grad_frozen {s : Store} {x : NodeId} :
    ∀ L σ, s.SameShape σ → (∀ i ∈ L, x ∉ (s.get i).ruleTargets) →
    ((replay σ L).get x).grad = (σ.get x).grad := by
  intro L
  induction L with
  | nil => intro σ _ _; rfl
  | cons i L ihl =>
      intro σ hsh hfr
      have ht : x ∉ ((σ.get i)).ruleTargets := by
        rw [ruleTargets_congr (shape_back hsh i)]
        exact hfr i (by simp)
      calc ((replay (run_backward σ i) L).get x).grad
          = ((run_backward σ i).get x).grad :=
            ihl (run_backward σ i)
              (sameShape_trans hsh (run_backward_shape σ i))
              (fun j hj => hfr j (List.mem_cons_of_mem _ hj))
        _ = (σ.get x).grad := run_backward_grad_ne σ i ht



theorem shiftInv_addGrad_same {s : Store} {u : NodeId} {t : ℝ} {σ₁ σ₂ : Store}
    (h : ShiftInv s u t σ₁ σ₂) (a : NodeId) (amt : ℝ) :
    ShiftInv s u t (σ₁.addGrad a amt) (σ₂.addGrad a amt) := by
  obtain ⟨h1, h2, h3, h4⟩ := h
  refine ⟨sameShape_trans h1 (addGrad_shape σ₁ a amt),
          sameShape_trans h2 (addGrad_shape σ₂ a amt), ?_, ?_⟩
  · by_cases hu : u = a
    · rw [hu] at h3 ⊢
      rw [get_addGrad_self, get_addGrad_self, h3]
      ring
    · rw [congrArg Node.grad (get_addGrad_ne σ₂ hu amt),
          congrArg Node.grad (get_addGrad_ne σ₁ hu amt)]
      exact h3
  · intro x hx
    by_cases hxa : x = a
    · rw [hxa, get_addGrad_self, get_addGrad_self, h4 a (hxa ▸ hx)]
    · rw [congrArg Node.grad (get_addGrad_ne σ₂ hxa amt),
          congrArg Node.grad (get_addGrad_ne σ₁ hxa amt)]
      exact h4 x hx

theorem shiftInv_addGrad_reach {s : Store} {u : NodeId} {t : ℝ} {σ₁ σ₂ : Store}
    (h : ShiftInv s u t σ₁ σ₂) {a : NodeId} (hr : Reaches s u a) (hne : a ≠ u)
    (amt₁ amt₂ : ℝ) :
    ShiftInv s u t (σ₁.addGrad a amt₁) (σ₂.addGrad a amt₂) := by
  obtain ⟨h1, h2, h3, h4⟩ := h
  refine ⟨sameShape_trans h1 (addGrad_shape σ₁ a amt₁),
          sameShape_trans h2 (addGrad_shape σ₂ a amt₂), ?_, ?_⟩
  · rw [congrArg Node.grad (get_addGrad_ne σ₂ (Ne.symm hne) amt₂),
        congrArg Node.grad (get_addGrad_ne σ₁ (Ne.symm hne) amt₁)]
    exact h3
  · intro x hx
    have hxa : x ≠ a := fun e => hx (e ▸ hr)
    rw [congrArg Node.grad (get_addGrad_ne σ₂ hxa amt₂),
        congrArg Node.grad (get_addGrad_ne σ₁ hxa amt₁)]
    exact h4 x hx

theorem shiftInv_run {s : Store} (hWF : s.WF) {u : NodeId} {t : ℝ} {σ₁ σ₂ : Store}
    (h : ShiftInv s u t σ₁ σ₂) (i : NodeId) (hi : i < s.size) (hus : u < s.size) :
    ShiftInv s u t (run_backward σ₁ i) (run_backward σ₂ i) := by
  obtain ⟨hs1, hs2, h3, h4⟩ := h
  obtain ⟨w1, w2, w3⟩ := hWF i hi
  rcases hb : (s.get i)._backward with _ | ⟨a, b, o⟩ | ⟨a, b, o⟩ | ⟨a, k, o⟩
    | ⟨a, o⟩ | ⟨a, d, o⟩
  case noop =>
    have e1 : (σ₁.get i)._backward = .noop := (shape_back hs1 i).trans hb
    have e2 : (σ₂.get i)._backward = .noop := (shape_back hs2 i).trans hb
    simp only [run_backward, e1, e2]
    exact ⟨hs1, hs2, h3, h4⟩
  case addB =>
    have e1 : (σ₁.get i)._backward = .addB a b o := (shape_back hs1 i).trans hb
    have e2 : (σ₂.get i)._backward = .addB a b o := (shape_back hs2 i).trans hb
    have ho : o = i := by simpa [Node.outId, hb] using w3
    have hamem : a ∈ (s.get i)._prev := w2 a (by simp [Node.ruleTargets, hb])
    have hbmem : b ∈ (s.get i)._prev := w2 b (by simp [Node.ruleTargets, hb])
    have halt : a < i := w1 a hamem
    have hblt : b < i := w1 b hbmem
    simp only [run_backward, e1, e2]
    by_cases hri : Reaches s u i
    · have hra : Reaches s u a := hri.trans (Reaches.step hamem (Reaches.refl a))
      have hrb : Reaches s u b := hri.trans (Reaches.step hbmem (Reaches.refl b))
      have hane : a ≠ u := fun e =>
        absurd (lt_of_le_of_lt (reach_le hWF hri hus) (e ▸ halt)) (lt_irrefl i)
      have hbne : b ≠ u := fun e =>
        absurd (lt_of_le_of_lt (reach_le hWF hri hus) (e ▸ hblt)) (lt_irrefl i)
      exact shiftInv_addGrad_reach
        (shiftInv_addGrad_reach ⟨hs1, hs2, h3, h4⟩ hra hane _ _) hrb hbne _ _
    · have hgi : (σ₂.get o).grad = (σ₁.get o).grad := by rw [ho]; exact h4 i hri
      rw [show (1 : ℝ) * (σ₂.get o).grad = 1 * (σ₁.get o).grad by rw [hgi]]
      have inv1 := shiftInv_addGrad_same ⟨hs1, hs2, h3, h4⟩ a (1 * (σ₁.get o).grad)
      have hgi2 : ((σ₂.addGrad a (1 * (σ₁.get o).grad)).get o).grad
          = ((σ₁.addGrad a (1 * (σ₁.get o).grad)).get o).grad := by
        have h5 := inv1.2.2.2 i hri
        rwa [← ho] at h5
      rw [show (1 : ℝ) * ((σ₂.addGrad a (1 * (σ₁.get o).grad)).get o).grad
          = 1 * ((σ₁.addGrad a (1 * (σ₁.get o).grad)).get o).grad by rw [hgi2]]
      exact shiftInv_addGrad_same inv1 b _
  case mulB =>
    have e1 : (σ₁.get i)._backward = .mulB a b o := (shape_back hs1 i).trans hb
    have e2 : (σ₂.get i)._backward = .mulB a b o := (shape_back hs2 i).trans hb
    have ho : o = i := by simpa [Node.outId, hb] using w3
    have hamem : a ∈ (s.get i)._prev := w2 a (by simp [Node.ruleTargets, hb])
    have hbmem : b ∈ (s.get i)._prev := w2 b (by simp [Node.ruleTargets, hb])
    have halt : a < i := w1 a hamem
    have hblt : b < i := w1 b hbmem
    simp only [run_backward, e1, e2]
    by_cases hri : Reaches s u i
    · have hra : Reaches s u a := hri.trans (Reaches.step hamem (Reaches.refl a))
      have hrb : Reaches s u b := hri.trans (Reaches.step hbmem (Reaches.refl b))
      have hane : a ≠ u := fun e =>
        absurd (lt_of_le_of_lt (reach_le hWF hri hus) (e ▸ halt)) (lt_irrefl i)
      have hbne : b ≠ u := fun e =>
        absurd (lt_of_le_of_lt (reach_le hWF hri hus) (e ▸ hblt)) (lt_irrefl i)
      exact shiftInv_addGrad_reach
        (shiftInv_addGrad_reach ⟨hs1, hs2, h3, h4⟩ hra hane _ _) hrb hbne _ _
    · have hgi : (σ₂.get o).grad = (σ₁.get o).grad := by rw [ho]; exact h4 i hri
      have hdb : (σ₂.get b).data = (σ₁.get b).data :=
        (shape_data hs2 b).trans (shape_data hs1 b).symm
      rw [show (σ₂.get b).data * (σ₂.get o).grad
          = (σ₁.get b).data * (σ₁.get o).grad by rw [hdb, hgi]]
      have inv1 := shiftInv_addGrad_same ⟨hs1, hs2, h3, h4⟩ a
        ((σ₁.get b).data * (σ₁.get o).grad)
      have hgi2 : ((σ₂.addGrad a ((σ₁.get b).data * (σ₁.get o).grad)).get o).grad
          = ((σ₁.addGrad a ((σ₁.get b).data * (σ₁.get o).grad)).get o).grad := by
        have h5 := inv1.2.2.2 i hri
        rwa [← ho] at h5
      have hda2 : ((σ₂.addGrad a ((σ₁.get b).data * (σ₁.get o).grad)).get a).data
          = ((σ₁.addGrad a ((σ₁.get b).data * (σ₁.get o).grad)).get a).data :=
        (shape_data inv1.2.1 a).trans (shape_data inv1.1 a).symm
      rw [show ((σ₂.addGrad a ((σ₁.get b).data * (σ₁.get o).grad)).get a).data
            * ((σ₂.addGrad a ((σ₁.get b).data * (σ₁.get o).grad)).get o).grad
          = ((σ₁.addGrad a ((σ₁.get b).data * (σ₁.get o).grad)).get a).data
            * ((σ₁.addGrad a ((σ₁.get b).data * (σ₁.get o).grad)).get o).grad by
        rw [hgi2, hda2]]
      exact shiftInv_addGrad_same inv1 b _
  case powB =>
    have e1 : (σ₁.get i)._backward = .powB a k o := (shape_back hs1 i).trans hb
    have e2 : (σ₂.get i)._backward = .powB a k o := (shape_back hs2 i).trans hb
    have ho : o = i := by simpa [Node.outId, hb] using w3
    have hamem : a ∈ (s.get i)._prev := w2 a (by simp [Node.ruleTargets, hb])
    have halt : a < i := w1 a hamem
    simp only [run_backward, e1, e2]
    by_cases hri : Reaches s u i
    · have hra : Reaches s u a := hri.trans (Reaches.step hamem (Reaches.refl a))
      have hane : a ≠ u := fun e =>
        absurd (lt_of_le_of_lt (reach_le hWF hri hus) (e ▸ halt)) (lt_irrefl i)
      exact shiftInv_addGrad_reach ⟨hs1, hs2, h3, h4⟩ hra hane _ _
    · have hgi : (σ₂.get o).grad = (σ₁.get o).grad := by rw [ho]; exact h4 i hri
      have hda : (σ₂.get a).data = (σ₁.get a).data :=
        (shape_data hs2 a).trans (shape_data hs1 a).symm
      rw [show k * Real.rpow (σ₂.get a).data (k - 1) * (σ₂.get o).grad
          = k * Real.rpow (σ₁.get a).data (k - 1) * (σ₁.get o).grad by
        rw [hda, hgi]]
      exact shiftInv_addGrad_same ⟨hs1, hs2, h3, h4⟩ a _
  case expB =>
    have e1 : (σ₁.get i)._backward = .expB a o := (shape_back hs1 i).trans hb
    have e2 : (σ₂.get i)._backward = .expB a o := (shape_back hs2 i).trans hb
    have ho : o = i := by simpa [Node.outId, hb] using w3
    have hamem : a ∈ (s.get i)._prev := w2 a (by simp [Node.ruleTargets, hb])
    have halt : a < i := w1 a hamem
    simp only [run_backward, e1, e2]
    by_cases hri : Reaches s u i
    · have hra : Reaches s u a := hri.trans (Reaches.step hamem (Reaches.refl a))
      have hane : a ≠ u := fun e =>
        absurd (lt_of_le_of_lt (reach_le hWF hri hus) (e ▸ halt)) (lt_irrefl i)
      exact shiftInv_addGrad_reach ⟨hs1, hs2, h3, h4⟩ hra hane _ _
    · have hgi : (σ₂.get o).grad = (σ₁.get o).grad := by rw [ho]; exact h4 i hri
      have hdo : (σ₂.get o).data = (σ₁.get o).data :=
        (shape_data hs2 o).trans (shape_data hs1 o).symm
      rw [show (σ₂.get o).data * (σ₂.get o).grad
          = (σ₁.get o).data * (σ₁.get o).grad by rw [hdo, hgi]]
      exact shiftInv_addGrad_same ⟨hs1, hs2, h3, h4⟩ a _
  case tanhB =>
    have e1 : (σ₁.get i)._backward = .tanhB a d o := (shape_back hs1 i).trans hb
    have e2 : (σ₂.get i)._backward = .tanhB a d o := (shape_back hs2 i).trans hb
    have ho : o = i := by simpa [Node.outId, hb] using w3
    have hamem : a ∈ (s.get i)._prev := w2 a (by simp [Node.ruleTargets, hb])
    have halt : a < i := w1 a hamem
    simp only [run_backward, e1, e2]
    by_cases hri : Reaches s u i
    · have hra : Reaches s u a := hri.trans (Reaches.step hamem (Reaches.refl a))
      have hane : a ≠ u := fun e =>
        absurd (lt_of_le_of_lt (reach_le hWF hri hus) (e ▸ halt)) (lt_irrefl i)
      exact shiftInv_addGrad_reach ⟨hs1, hs2, h3, h4⟩ hra hane _ _
    · have hgi : (σ₂.get o).grad = (σ₁.get o).grad := by rw [ho]; exact h4 i hri
      rw [show (1 - d * d) * (σ₂.get o).grad
          = (1 - d * d) * (σ₁.get o).grad by rw [hgi]]
      exact shiftInv_addGrad_same ⟨hs1, hs2, h3, h4⟩ a _

theorem replay_shiftInv {s : Store} (hWF : s.WF) {u : NodeId} {t : ℝ}
    (hus : u < s.size) :
    ∀ L σ₁ σ₂, (∀ i ∈ L, i < s.size) → ShiftInv s u t σ₁ σ₂ →
      ShiftInv s u t (replay σ₁ L) (replay σ₂ L) := by
  intro L
  induction L with
  | nil => exact fun σ₁ σ₂ _ h => h
  | cons i L ihl =>
      intro σ₁ σ₂ hL h
      exact ihl _ _ (fun j hj => hL j (List.mem_cons_of_mem _ hj))
        (shiftInv_run hWF h i (hL i (by simp)) hus)



theorem backward_root_grad (s : Store) (hWF : s.WF) (v : NodeId)
    (hv : v < s.size) : ((backward s v).get v).grad = 1 := by
  have hfr : ∀ i ∈ (topoOf s v).reverse, v ∉ (s.get i).ruleTargets := by
    intro i hi hvt
    rw [List.mem_reverse] at hi
    have hir : Reaches s v i := topoOf_sound s hWF v hv i hi
    have hile : i ≤ v := reach_le hWF hir hv
    have his : i < s.size := lt_of_le_of_lt hile hv
    have hvp : v ∈ (s.get i)._prev := (hWF i his).2.1 v hvt
    have hvi : v < i := (hWF i his).1 v hvp
    exact absurd (lt_of_lt_of_le hvi hile) (lt_irrefl v)
  show ((replay (s.setGrad v 1) (topoOf s v).reverse).get v).grad = 1
  rw [replay_grad_frozen ((topoOf s v).reverse) (s.setGrad v 1)
    (setGrad_shape s v 1) hfr]
  exact get_setGrad_self s v 1

theorem setGrad_setGrad (s : Store) (i : NodeId) (g1 g2 : ℝ) :
    (s.setGrad i g1).setGrad i g2 = s.setGrad i g2 := by
  unfold Store.setGrad
  refine congrArg (Store.mk s.size) ?_
  funext j
  by_cases h : j = i <;> simp [h]

theorem setGrad_own (s : Store) (i : NodeId) :
    s.setGrad i ((s.get i).grad) = s := by
  have h : (fun j => if j = i then { s.nodes i with grad := (s.get i).grad }
      else s.nodes j) = s.nodes := by
    funext j
    by_cases h : j = i
    · rw [h]
      show (if i = i then { s.nodes i with grad := (s.get i).grad }
        else s.nodes i) = s.nodes i
      rw [if_pos rfl]
      rfl
    · simp [h]
  show Store.mk s.size _ = s
  rw [h]

theorem backward_shift (s : Store) (hWF : s.WF) {v u : NodeId}
    (hv : v < s.size) (hu : u < s.size) (huv : u ≠ v) (g t : ℝ) :
    ((backward (s.setGrad u (g + t)) v).get u).grad
      = ((backward (s.setGrad u g) v).get u).grad + t := by
  have hsh1 : s.SameShape (s.setGrad u g) := setGrad_shape s u g
  have hsh2 : s.SameShape (s.setGrad u (g + t)) := setGrad_shape s u (g + t)
  have ht1 : topoOf (s.setGrad u g) v = topoOf s v := topoOf_shape hsh1 v
  have ht2 : topoOf (s.setGrad u (g + t)) v = topoOf s v := topoOf_shape hsh2 v
  have hinv : ShiftInv s u t ((s.setGrad u g).setGrad v 1)
      ((s.setGrad u (g + t)).setGrad v 1) := by
    refine ⟨sameShape_trans hsh1 (setGrad_shape _ v 1),
            sameShape_trans hsh2 (setGrad_shape _ v 1), ?_, ?_⟩
    · rw [congrArg Node.grad (get_setGrad_ne _ huv 1),
          congrArg Node.grad (get_setGrad_ne _ huv 1),
          get_setGrad_self, get_setGrad_self]
    · intro x hx
      have hxu : x ≠ u := fun e => hx (by rw [e]; exact Reaches.refl u)
      by_cases hxv : x = v
      · rw [hxv, get_setGrad_self, get_setGrad_self]
      · rw [get_setGrad_ne _ hxv, get_setGrad_ne _ hxv,
            get_setGrad_ne _ hxu, get_setGrad_ne _ hxu]
  have hmem : ∀ i ∈ (topoOf s v).reverse, i < s.size := by
    intro i hi
    rw [List.mem_reverse] at hi
    exact lt_of_le_of_lt (reach_le hWF (topoOf_sound s hWF v hv i hi) hv) hv
  have final := replay_shiftInv hWF hu ((topoOf s v).reverse) _ _ hmem hinv
  show ((replay ((s.setGrad u (g + t)).setGrad v 1)
      (topoOf (s.setGrad u (g + t)) v).reverse).get u).grad
    = ((replay ((s.setGrad u g).setGrad v 1)
      (topoOf (s.setGrad u g) v).reverse).get u).grad + t
  rw [ht1, ht2]
  exact final.2.2.1

theorem backward_unreachable (s : Store) (hWF : s.WF) (v : NodeId)
    (hv : v < s.size) :
    ∀ x, ¬ Reaches s v x → (backward s v).get x = s.get x := by
  intro x hx
  have hxv : x ≠ v := fun e => hx (by rw [e]; exact Reaches.refl v)
  have hfr : ∀ i ∈ (topoOf s v).reverse, x ∉ (s.get i).ruleTargets := by
    intro i hi hxt
    rw [List.mem_reverse] at hi
    have hir := topoOf_sound s hWF v hv i hi
    have his : i < s.size := lt_of_le_of_lt (reach_le hWF hir hv) hv
    have hxp : x ∈ (s.get i)._prev := (hWF i his).2.1 x hxt
    exact hx (hir.trans (Reaches.step hxp (Reaches.refl x)))
  have hg : ((backward s v).get x).grad = (s.get x).grad := by
    show ((replay (s.setGrad v 1) (topoOf s v).reverse).get x).grad = _
    rw [replay_grad_frozen _ _ (setGrad_shape s v 1) hfr,
      congrArg Node.grad (get_setGrad_ne s hxv 1)]
  have hsh := backward_shape s v
  exact Node.ext (shape_data hsh x) hg (shape_back hsh x)
    (shape_prev hsh x) (shape_op hsh x) (shape_label hsh x)

theorem backward_no_parents (s : Store) (hWF : s.WF) (v : NodeId)
    (hv : v < s.size) (hp : (s.get v)._prev = []) :
    backward s v = s.setGrad v 1 := by
  have htopo : topoOf s v = [v] := by
    unfold topoOf
    rcases hsz : s.size with _ | g
    · rw [hsz] at hv; exact absurd hv (Nat.not_lt_zero v)
    · simp [build_topo, hp]
  have hback : (s.get v)._backward = .noop := by
    have w2 := (hWF v hv).2.1
    rw [hp] at w2
    rcases hb : (s.get v)._backward with _ | ⟨a, b, o⟩ | ⟨a, b, o⟩ | ⟨a, k, o⟩
      | ⟨a, o⟩ | ⟨a, d, o⟩
    · rfl
    all_goals exact absurd (w2 a (by simp [Node.ruleTargets, hb])) (by simp)
  have hback1 : ((s.setGrad v 1).get v)._backward = .noop :=
    (shape_back (setGrad_shape s v 1) v).trans hback
  show replay (s.setGrad v 1) (topoOf s v).reverse = s.setGrad v 1
  rw [htopo]
  show run_backward (s.setGrad v 1) v = s.setGrad v 1
  simp only [run_backward, hback1]


theorem rpow_neg_one_eq (x : ℝ) : x ^ (-1 : ℝ) = x⁻¹ := by
  rw [show (-1 : ℝ) = ((-1 : ℤ) : ℝ) by norm_num, Real.rpow_intCast,
    zpow_neg_one]

theorem rpow_neg_one_rpow (x : ℝ) : Real.rpow x (-1) = x⁻¹ := rpow_neg_one_eq x

theorem get_alloc_lt (s : Store) (n : Node) {i : NodeId} (h : i < s.size) :
    (s.alloc n).1.get i = s.get i := by
  have hne : i ≠ s.size := Nat.ne_of_lt h
  simp [Store.alloc, Store.get, hne]

/-- C1: canonical end-to-end fixture — with `a = Value(2.0)`, `b = Value(-3.0)`,
`c = Value(10.0)`, `f = Value(-2.0)`, `e = a*b`, `d = e+c`, `L = d*f`, the call
`L.backward()` yields `L.data = -8`, `L.grad = 1`, `f.grad = 4`, `d.grad = -2`,
`e.grad = -2`, `c.grad = -2`, `b.grad = -4`, `a.grad = 6`. -/
theorem canonical_fixture :
    (sL.get 6).data = -8 ∧
    ((backward sL 6).get 6).grad = 1 ∧
    ((backward sL 6).get 3).grad = 4 ∧
    ((backward sL 6).get 5).grad = -2 ∧
    ((backward sL 6).get 4).grad = -2 ∧
    ((backward sL 6).get 2).grad = -2 ∧
    ((backward sL 6).get 1).grad = -4 ∧
    ((backward sL 6).get 0).grad = 6 := by
  have ht : topoOf sL 6 = [0, 1, 4, 2, 5, 3, 6] := rfl
  constructor
  · norm_num [sL, sD, sE, sF, sC, sB, sA, opMul, opAdd, mkValue, Store.alloc,
      Store.get, Store.empty]
  · simp only [backward, ht]
    norm_num [replay, run_backward, Store.get, Store.addGrad, Store.setGrad,
      sL, sD, sE, sF, sC, sB, sA, opMul, opAdd, mkValue, Store.alloc,
      Store.empty, List.foldl]

/-- C2: on every well-formed finite heap, the topological order built by
`backward`'s depth-first post-order traversal (`topoOf`) contains exactly the
nodes reachable from the called node via `_prev`, each exactly once (membership
is id — i.e. pointer — identity), and no node is followed by one of its own
parents, i.e. every node appears after all of its parents. -/
theorem topo_order_spec (s : Store) (hWF : s.WF) (v : NodeId)
    (hv : v < s.size) :
    (∀ u, u ∈ topoOf s v ↔ Reaches s v u) ∧
    (topoOf s v).Nodup ∧
    (∀ x ∈ topoOf s v, ∀ p ∈ (s.get x)._prev, p ∈ topoOf s v) ∧
    List.Pairwise (fun a b => b ∉ (s.get a)._prev) (topoOf s v) :=
  ⟨fun u => ⟨topoOf_sound s hWF v hv u, topoOf_complete s hWF v hv u⟩,
   (topoOf_post s hWF v hv).inv.nodup,
   (topoOf_post s hWF v hv).inv.closed,
   (topoOf_post s hWF v hv).inv.pair⟩

/-- C2 witness: the diamond heap `diaS` with two value-equal distinct leaves. -/
theorem topo_order_spec_witness :
    Store.WF diaS ∧
    ((∀ u, u ∈ topoOf diaS 4 ↔ Reaches diaS 4 u) ∧
     (topoOf diaS 4).Nodup ∧
     (∀ x ∈ topoOf diaS 4, ∀ p ∈ (diaS.get x)._prev, p ∈ topoOf diaS 4) ∧
     List.Pairwise (fun a b => b ∉ (diaS.get a)._prev) (topoOf diaS 4)) :=
  ⟨by decide, topo_order_spec diaS (by decide) 4 (by decide)⟩

/-- C3: gradient contributions accumulate and are never overwritten — for
`y = x + x` the gradient of `x` after `y.backward()` is `2`, and when one node
feeds two consumers `p = x*a`, `q = x*b`, `z = p+q`, the gradient of `x` after
`z.backward()` is the sum `a.data + b.data` of both consumers' contributions. -/
theorem grad_accumulates :
    (∀ v : ℝ, ((backward (addXX v) 1).get 0).grad = 2) ∧
    (∀ xv av bv : ℝ, ((backward (fanOut xv av bv) 5).get 0).grad = av + bv) := by
  constructor
  · intro v
    have ht : topoOf (addXX v) 1 = [0, 1] := rfl
    simp only [backward, ht]
    norm_num [replay, run_backward, Store.get, Store.addGrad, Store.setGrad,
      addXX, xLeaf, opAdd, mkValue, Store.alloc, Store.empty, List.foldl]
  · intro xv av bv
    have ht : topoOf (fanOut xv av bv) 5 = [0, 1, 3, 2, 4, 5] := rfl
    simp only [backward, ht]
    norm_num [replay, run_backward, Store.get, Store.addGrad, Store.setGrad,
      fanOut, xLeaf, opAdd, opMul, mkValue, Store.alloc, Store.empty,
      List.foldl]
    ring

/-- C4: after `backward` the called node's gradient is exactly `1` regardless of
graph shape and prior gradient state; and a second backward pass over a
previously-evaluated graph adds its new contributions on top of every other
node's existing gradient value instead of resetting it: the gradient after the
second pass equals the existing value plus what that pass would have deposited
had the accumulator been `0`. -/
theorem seed_and_accumulate (s : Store) (hWF : s.WF) (v : NodeId)
    (hv : v < s.size) :
    ((backward s v).get v).grad = 1 ∧
    (∀ u, u < s.size → u ≠ v →
      ((backward (backward s v) v).get u).grad
        = ((backward s v).get u).grad
          + ((backward ((backward s v).setGrad u 0) v).get u).grad) := by
  constructor
  · exact backward_root_grad s hWF v hv
  · intro u hu huv
    have hsh : s.SameShape (backward s v) := backward_shape s v
    have hWF₁ : (backward s v).WF := WF_of_shape hsh hWF
    have hv₁ : v < (backward s v).size := by rw [shape_size hsh]; exact hv
    have hu₁ : u < (backward s v).size := by rw [shape_size hsh]; exact hu
    have key := backward_shift (backward s v) hWF₁ hv₁ hu₁ huv 0
      (((backward s v).get u).grad)
    rw [zero_add, setGrad_own] at key
    rw [key]
    ring

/-- C4 witness: the `y = x + x` heap with `x.data = 5`. -/
theorem seed_and_accumulate_witness :
    ((backward (addXX 5) 1).get 1).grad = 1 ∧
    (∀ u, u < (addXX 5).size → u ≠ 1 →
      ((backward (backward (addXX 5) 1) 1).get u).grad
        = ((backward (addXX 5) 1).get u).grad
          + ((backward ((backward (addXX 5) 1).setGrad u 0) 1).get u).grad) :=
  seed_and_accumulate (addXX 5) (by decide) 1 (by decide)

/-- C5: the local rules match the derivative table — the rule stored by
`pow(x, k)` adds `k * x.data^(k-1) * out.grad` to `x.grad`, the rule of `exp`
adds `out.data * out.grad`, and the rule of `tanh` adds
`(1 - out.data^2) * out.grad`; consequently for `x.data = 0`, `backward` on
`tanh(x)` gives `x.grad = 1` and `backward` on `exp(x)` gives `x.grad = 1`. -/
theorem unary_rules :
    (∀ (σ : Store) (i a : NodeId) (k : ℝ) (o : NodeId),
        (σ.get i)._backward = .powB a k o →
        run_backward σ i
          = σ.addGrad a (k * Real.rpow (σ.get a).data (k - 1)
              * (σ.get o).grad)) ∧
    (∀ (σ : Store) (i a o : NodeId),
        (σ.get i)._backward = .expB a o →
        run_backward σ i = σ.addGrad a ((σ.get o).data * (σ.get o).grad)) ∧
    (∀ (σ : Store) (i a : NodeId) (d : ℝ) (o : NodeId),
        (σ.get i)._backward = .tanhB a d o → (σ.get o).data = d →
        run_backward σ i
          = σ.addGrad a ((1 - (σ.get o).data ^ 2) * (σ.get o).grad)) ∧
    ((backward (tanhFix 0) 1).get 0).grad = 1 ∧
    ((backward (expFix 0) 1).get 0).grad = 1 := by
  refine ⟨?_, ?_, ?_, ?_, ?_⟩
  · intro σ i a k o hb
    simp [run_backward, hb]
  · intro σ i a o hb
    simp [run_backward, hb]
  · intro σ i a d o hb hd
    simp only [run_backward, hb]
    rw [← hd]
    congr 1
    ring
  · have ht : topoOf (tanhFix 0) 1 = [0, 1] := rfl
    simp only [backward, ht]
    norm_num [replay, run_backward, Store.get, Store.addGrad, Store.setGrad,
      tanhFix, xLeaf, tanh, mkValue, Store.alloc, Store.empty, List.foldl,
      Real.tanh_zero]
  · have ht : topoOf (expFix 0) 1 = [0, 1] := rfl
    simp only [backward, ht]
    norm_num [replay, run_backward, Store.get, Store.addGrad, Store.setGrad,
      expFix, xLeaf, exp, mkValue, Store.alloc, Store.empty, List.foldl,
      Real.exp_zero]



/-- C5 witness: concrete `pow`/`tanh`/`exp` output nodes. -/
theorem unary_rules_witness :
    run_backward powFixW 1
      = powFixW.addGrad 0 (3 * Real.rpow (powFixW.get 0).data (3 - 1)
          * (powFixW.get 1).grad) ∧
    run_backward (tanhFix 0) 1
      = (tanhFix 0).addGrad 0 ((1 - ((tanhFix 0).get 1).data ^ 2)
          * ((tanhFix 0).get 1).grad) ∧
    run_backward (expFix 0) 1
      = (expFix 0).addGrad 0 (((expFix 0).get 1).data
          * ((expFix 0).get 1).grad) :=
  ⟨unary_rules.1 powFixW 1 0 3 1 rfl,
   unary_rules.2.2.1 (tanhFix 0) 1 0 (Real.tanh 0) 1 rfl rfl,
   unary_rules.2.1 (expFix 0) 1 0 1 rfl⟩

/-- C6: the compositional builders — `negate(x)` is `multiply(x, constant(-1))`,
`subtract(x, y)` is `add(x, negate(y))`, and `divide(x, y)` is
`multiply(x, power(y, -1))` (heap-level equalities with the spec-side
compositions), so the composite operators' output values are `-x.data`,
`x.data - y.data` and `x.data / y.data`, and the gradients they propagate are
those of the composition (same heap, hence same backward pass). -/
theorem compositional_builders :
    (∀ (s : Store) (x : NodeId), neg s x = spec_negate s x) ∧
    (∀ (s : Store) (x y : NodeId), opSub s x y = spec_subtract s x y) ∧
    (∀ (s : Store) (x y : NodeId), opDiv s x y = spec_divide s x y) ∧
    (∀ (s : Store) (x : NodeId), x < s.size →
      (((neg s x).1).get (neg s x).2).data = -(s.get x).data) ∧
    (∀ (s : Store) (x y : NodeId), x < s.size → y < s.size →
      (((opSub s x y).1).get (opSub s x y).2).data
        = (s.get x).data - (s.get y).data) ∧
    (∀ (s : Store) (x y : NodeId), x < s.size →
      (((opDiv s x y).1).get (opDiv s x y).2).data
        = (s.get x).data / (s.get y).data) := by
  refine ⟨fun s x => rfl, fun s x y => rfl, fun s x y => rfl, ?_, ?_, ?_⟩
  · intro s x hx
    have h1 : x ≠ s.size := Nat.ne_of_lt hx
    norm_num [neg, opMulVD, opMul, mkValue, Store.alloc, Store.get, h1]
  · intro s x y hx hy
    have h1 : x ≠ s.size := Nat.ne_of_lt hx
    have h2 : x ≠ s.size + 1 := Nat.ne_of_lt (Nat.lt_succ_of_lt hx)
    have h3 : x ≠ 1 + s.size := by rw [Nat.add_comm]; exact h2
    have h4 : y ≠ s.size := Nat.ne_of_lt hy
    norm_num [opSub, neg, opMulVD, opMul, opAdd, mkValue, Store.alloc,
      Store.get, h1, h2, h3, h4]
    ring
  · intro s x y hx
    have h1 : x ≠ s.size := Nat.ne_of_lt hx
    norm_num [opDiv, pow, opMul, mkValue, Store.alloc, Store.get, h1,
      rpow_neg_one_eq, rpow_neg_one_rpow, div_eq_mul_inv]

/-- C6 witness: the two-leaf heap at operands `0` and `1`. -/
theorem compositional_builders_witness :
    (((neg twoLeafS 0).1).get (neg twoLeafS 0).2).data
      = -(twoLeafS.get 0).data ∧
    (((opSub twoLeafS 0 1).1).get (opSub twoLeafS 0 1).2).data
      = (twoLeafS.get 0).data - (twoLeafS.get 1).data ∧
    (((opDiv twoLeafS 0 1).1).get (opDiv twoLeafS 0 1).2).data
      = (twoLeafS.get 0).data / (twoLeafS.get 1).data :=
  ⟨compositional_builders.2.2.2.1 twoLeafS 0 (by decide),
   compositional_builders.2.2.2.2.1 twoLeafS 0 1 (by decide) (by decide),
   compositional_builders.2.2.2.2.2 twoLeafS 0 1 (by decide)⟩

/-- C7 counterexample: `divide(node, scalar)` does not promote the scalar and
apply the node/node divide builder — the C++ code computes
`x * constant(1/d)` (2 fresh nodes), whereas promote-then-divide builds
`x * pow(constant(d), -1)` (3 fresh nodes), so the resulting heaps differ at
`x = constant(1)`, `d = 2`. -/
theorem promote_div_counterexample :
    opDivVD (xLeaf 1) 0 2 ≠ spec_div_promote (xLeaf 1) 0 2 := by
  intro h
  have h2 := congrArg (fun p => p.1.size) h
  have e1 : (opDivVD (xLeaf 1) 0 2).1.size = 3 := rfl
  have e2 : (spec_div_promote (xLeaf 1) 0 2).1.size = 4 := rfl
  simp only [] at h2
  rw [e1, e2] at h2
  exact absurd h2 (by decide)

/-- C7 amended: for addition, multiplication, subtraction (scalar on either
side) and division with the scalar on the left, the mixed overload equals
promote-the-scalar-then-apply-the-node/node-builder exactly (heap-level); for
`divide(node, scalar)` the code instead multiplies by the promoted reciprocal
constant `1/scalar`, which produces the same output value and deposits the same
gradient on the node operand after `backward()` as promote-then-divide. -/
theorem promote_refinement :
    (∀ (s : Store) (x : NodeId) (d : ℝ),
      opAddVD s x d = (let c := mkValue s d [] "" ""; opAdd c.1 x c.2)) ∧
    (∀ (s : Store) (d : ℝ) (y : NodeId),
      opAddDV s d y = (let c := mkValue s d [] "" ""; opAdd c.1 c.2 y)) ∧
    (∀ (s : Store) (x : NodeId) (d : ℝ),
      opMulVD s x d = (let c := mkValue s d [] "" ""; opMul c.1 x c.2)) ∧
    (∀ (s : Store) (d : ℝ) (y : NodeId),
      opMulDV s d y = (let c := mkValue s d [] "" ""; opMul c.1 c.2 y)) ∧
    (∀ (s : Store) (x : NodeId) (d : ℝ),
      opSubVD s x d = (let c := mkValue s d [] "" ""; opSub c.1 x c.2)) ∧
    (∀ (s : Store) (d : ℝ) (y : NodeId),
      opSubDV s d y = (let c := mkValue s d [] "" ""; opSub c.1 c.2 y)) ∧
    (∀ (s : Store) (d : ℝ) (y : NodeId),
      opDivDV s d y = (let c := mkValue s d [] "" ""; opDiv c.1 c.2 y)) ∧
    (∀ v d : ℝ,
      ((opDivVD (xLeaf v) 0 d).1.get (opDivVD (xLeaf v) 0 d).2).data
        = ((spec_div_promote (xLeaf v) 0 d).1.get
            (spec_div_promote (xLeaf v) 0 d).2).data) ∧
    (∀ v d : ℝ,
      ((backward (opDivVD (xLeaf v) 0 d).1 2).get 0).grad
        = ((backward (spec_div_promote (xLeaf v) 0 d).1 3).get 0).grad) := by
  refine ⟨fun s x d => rfl, fun s d y => rfl, fun s x d => rfl,
    fun s d y => rfl, fun s x d => rfl, fun s d y => rfl, fun s d y => rfl,
    ?_, ?_⟩
  · intro v d
    norm_num [opDivVD, opMulVD, spec_div_promote, opDiv, pow, opMul, mkValue,
      Store.alloc, Store.get, xLeaf, Store.empty, rpow_neg_one_eq,
      rpow_neg_one_rpow, one_div]
  · intro v d
    have ht1 : topoOf (opDivVD (xLeaf v) 0 d).1 2 = [0, 1, 2] := rfl
    have ht2 : topoOf (spec_div_promote (xLeaf v) 0 d).1 3 = [0, 1, 2, 3] := rfl
    simp only [backward, ht1, ht2]
    norm_num [replay, run_backward, Store.get, Store.addGrad, Store.setGrad,
      opDivVD, opMulVD, spec_div_promote, opDiv, pow, opMul, mkValue,
      Store.alloc, Store.empty, xLeaf, List.foldl, rpow_neg_one_eq,
      rpow_neg_one_rpow, one_div]



/-- C8: frame property — no operation builder mutates an existing node (every
already-allocated node, in particular each operand, is bitwise unchanged in the
result heap, gradient included), and `backward` writes only gradient
accumulators: it preserves the heap size and every node up to its gradient
(`data`, `_backward`, `_prev`, `_op`, `label` are never modified). -/
theorem frame_no_mutation :
    (∀ (s : Store) (val : ℝ) (ch : List NodeId) (op lbl : String),
      ∀ i < s.size, (mkValue s val ch op lbl).1.get i = s.get i) ∧
    (∀ (s : Store) (a b : NodeId), ∀ i < s.size,
      (opAdd s a b).1.get i = s.get i) ∧
    (∀ (s : Store) (a : NodeId) (d : ℝ), ∀ i < s.size,
      (opAddVD s a d).1.get i = s.get i) ∧
    (∀ (s : Store) (d : ℝ) (b : NodeId), ∀ i < s.size,
      (opAddDV s d b).1.get i = s.get i) ∧
    (∀ (s : Store) (a b : NodeId), ∀ i < s.size,
      (opMul s a b).1.get i = s.get i) ∧
    (∀ (s : Store) (a : NodeId) (d : ℝ), ∀ i < s.size,
      (opMulVD s a d).1.get i = s.get i) ∧
    (∀ (s : Store) (d : ℝ) (b : NodeId), ∀ i < s.size,
      (opMulDV s d b).1.get i = s.get i) ∧
    (∀ (s : Store) (a : NodeId) (k : ℝ), ∀ i < s.size,
      (pow s a k).1.get i = s.get i) ∧
    (∀ (s : Store) (a b : NodeId), ∀ i < s.size,
      (opDiv s a b).1.get i = s.get i) ∧
    (∀ (s : Store) (a : NodeId) (d : ℝ), ∀ i < s.size,
      (opDivVD s a d).1.get i = s.get i) ∧
    (∀ (s : Store) (d : ℝ) (b : NodeId), ∀ i < s.size,
      (opDivDV s d b).1.get i = s.get i) ∧
    (∀ (s : Store) (a : NodeId), ∀ i < s.size,
      (neg s a).1.get i = s.get i) ∧
    (∀ (s : Store) (a b : NodeId), ∀ i < s.size,
      (opSub s a b).1.get i = s.get i) ∧
    (∀ (s : Store) (a : NodeId) (d : ℝ), ∀ i < s.size,
      (opSubVD s a d).1.get i = s.get i) ∧
    (∀ (s : Store) (d : ℝ) (b : NodeId), ∀ i < s.size,
      (opSubDV s d b).1.get i = s.get i) ∧
    (∀ (s : Store) (a : NodeId), ∀ i < s.size,
      (exp s a).1.get i = s.get i) ∧
    (∀ (s : Store) (a : NodeId), ∀ i < s.size,
      (tanh s a).1.get i = s.get i) ∧
    (∀ (s : Store) (v : NodeId), (backward s v).size = s.size ∧
      ∀ i, ((backward s v).get i).strip = (s.get i).strip) := by
  refine ⟨fun s val ch op lbl i h => get_alloc_lt s _ h,
    fun s a b i h => get_alloc_lt s _ h,
    fun s a d i h => (get_alloc_lt (mkValue s d [] "" "").1 _
      (Nat.lt_succ_of_lt h)).trans (get_alloc_lt s _ h),
    fun s d b i h => (get_alloc_lt (mkValue s d [] "" "").1 _
      (Nat.lt_succ_of_lt h)).trans (get_alloc_lt s _ h),
    fun s a b i h => get_alloc_lt s _ h,
    fun s a d i h => (get_alloc_lt (mkValue s d [] "" "").1 _
      (Nat.lt_succ_of_lt h)).trans (get_alloc_lt s _ h),
    fun s d b i h => (get_alloc_lt (mkValue s d [] "" "").1 _
      (Nat.lt_succ_of_lt h)).trans (get_alloc_lt s _ h),
    fun s a k i h => get_alloc_lt s _ h,
    fun s a b i h => (get_alloc_lt (pow s b (-1)).1 _
      (Nat.lt_succ_of_lt h)).trans (get_alloc_lt s _ h),
    fun s a d i h => (get_alloc_lt (mkValue s (1 / d) [] "" "").1 _
      (Nat.lt_succ_of_lt h)).trans (get_alloc_lt s _ h),
    fun s d b i h => (get_alloc_lt (pow (mkValue s d [] "" "").1 b (-1)).1 _
      (Nat.lt_succ_of_lt (Nat.lt_succ_of_lt h))).trans
      ((get_alloc_lt (mkValue s d [] "" "").1 _
        (Nat.lt_succ_of_lt h)).trans (get_alloc_lt s _ h)),
    fun s a i h => (get_alloc_lt (mkValue s (-1) [] "" "").1 _
      (Nat.lt_succ_of_lt h)).trans (get_alloc_lt s _ h),
    fun s a b i h => (get_alloc_lt (neg s b).1 _
      (Nat.lt_succ_of_lt (Nat.lt_succ_of_lt h))).trans
      ((get_alloc_lt (mkValue s (-1) [] "" "").1 _
        (Nat.lt_succ_of_lt h)).trans (get_alloc_lt s _ h)),
    fun s a d i h => ?_,
    fun s d b i h => ?_,
    fun s a i h => get_alloc_lt s _ h,
    fun s a i h => get_alloc_lt s _ h,
    fun s v => ⟨shape_size (backward_shape s v), fun i => (backward_shape s v).2 i⟩⟩
  · exact (get_alloc_lt (neg (mkValue s d [] "" "").1
        (mkValue s d [] "" "").2).1 _
      (Nat.lt_succ_of_lt (Nat.lt_succ_of_lt (Nat.lt_succ_of_lt h)))).trans
      ((get_alloc_lt (mkValue (mkValue s d [] "" "").1 (-1) [] "" "").1 _
        (Nat.lt_succ_of_lt (Nat.lt_succ_of_lt h))).trans
       ((get_alloc_lt (mkValue s d [] "" "").1 _
         (Nat.lt_succ_of_lt h)).trans (get_alloc_lt s _ h)))
  · exact (get_alloc_lt (neg (mkValue s d [] "" "").1 b).1 _
      (Nat.lt_succ_of_lt (Nat.lt_succ_of_lt (Nat.lt_succ_of_lt h)))).trans
      ((get_alloc_lt (mkValue (mkValue s d [] "" "").1 (-1) [] "" "").1 _
        (Nat.lt_succ_of_lt (Nat.lt_succ_of_lt h))).trans
       ((get_alloc_lt (mkValue s d [] "" "").1 _
         (Nat.lt_succ_of_lt h)).trans (get_alloc_lt s _ h)))

/-- C8 witness: operand nodes of `opAdd`, `opMul` and a backward pass over the
two-leaf heap are untouched. -/
theorem frame_no_mutation_witness :
    (opAdd twoLeafS 0 1).1.get 0 = twoLeafS.get 0 ∧
    (opMul twoLeafS 0 1).1.get 1 = twoLeafS.get 1 ∧
    (opSubVD twoLeafS 0 7).1.get 0 = twoLeafS.get 0 ∧
    (backward twoLeafS 0).size = twoLeafS.size :=
  ⟨frame_no_mutation.2.1 twoLeafS 0 1 0 (by decide),
   frame_no_mutation.2.2.2.2.1 twoLeafS 0 1 1 (by decide),
   frame_no_mutation.2.2.2.2.2.2.2.2.2.2.2.2.2.1 twoLeafS 0 7 0 (by decide),
   (frame_no_mutation.2.2.2.2.2.2.2.2.2.2.2.2.2.2.2.2.2 twoLeafS 0).1⟩

/-- C9: `backward` only affects nodes reachable from the called node via
`_prev` — every unreachable node is entirely unchanged — and calling it on a
node with no parents only sets that node's own gradient to `1`. -/
theorem backward_reachable_frame (s : Store) (hWF : s.WF) (v : NodeId)
    (hv : v < s.size) :
    (∀ x, ¬ Reaches s v x → (backward s v).get x = s.get x) ∧
    ((s.get v)._prev = [] → backward s v = s.setGrad v 1) :=
  ⟨backward_unreachable s hWF v hv, backward_no_parents s hWF v hv⟩

/-- C9 witness: the two-leaf heap; node 1 is not reachable from node 0. -/
theorem backward_reachable_frame_witness :
    Store.WF twoLeafS ∧
    ((∀ x, ¬ Reaches twoLeafS 0 x → (backward twoLeafS 0).get x
        = twoLeafS.get x) ∧
     ((twoLeafS.get 0)._prev = [] → backward twoLeafS 0
        = twoLeafS.setGrad 0 1)) :=
  ⟨by decide, backward_reachable_frame twoLeafS (by decide) 0 (by decide)⟩

/-- C10: termination — on every well-formed finite heap the traversal finishes
within the fuel `backward` provides: any fuel beyond the called node's id
yields the same result (the C++ recursion bottoms out), and the visited/topo
construction visits each node at most once, so the topological order is
duplicate-free and no longer than the heap. -/
theorem backward_terminates (s : Store) (hWF : s.WF) (v : NodeId)
    (hv : v < s.size) :
    (∀ fuel, v < fuel →
      build_topo s fuel v ([], []) = build_topo s (v + 1) v ([], [])) ∧
    (topoOf s v).Nodup ∧ (topoOf s v).length ≤ s.size := by
  refine ⟨fun fuel hf =>
    build_topo_fuel s hWF v hv fuel (v + 1) hf (Nat.lt_succ_self v) _,
    (topoOf_post s hWF v hv).inv.nodup, ?_⟩
  have hnd := (topoOf_post s hWF v hv).inv.nodup
  have hlt : ∀ x ∈ topoOf s v, x < s.size := fun x hx =>
    lt_of_le_of_lt (reach_le hWF (topoOf_sound s hWF v hv x hx) hv) hv
  calc (topoOf s v).length = (topoOf s v).toFinset.card :=
        (List.toFinset_card_of_nodup hnd).symm
    _ ≤ (Finset.range s.size).card :=
        Finset.card_le_card (fun x hx =>
          Finset.mem_range.mpr (hlt x (List.mem_toFinset.mp hx)))
    _ = s.size := Finset.card_range _

/-- C10 witness: the diamond heap. -/
theorem backward_terminates_witness :
    (∀ fuel, 4 < fuel →
      build_topo diaS fuel 4 ([], []) = build_topo diaS (4 + 1) 4 ([], [])) ∧
    (topoOf diaS 4).Nodup ∧ (topoOf diaS 4).length ≤ diaS.size :=
  backward_terminates diaS (by decide) 4 (by decide)

end Cugrad
